import Mathlib

/-!
Verification development for the antimaia match driver (src/antimaia.py).

The embedding models the program over abstract external collaborators:
the Rules Engine (python-chess board operations) is a structure of pure
functions, the Evaluation Oracle (Stockfish) is a function from FEN strings
to structured evaluations, and the Move-Distribution Oracle (Maia/lc0) is a
function from FEN strings to (move, likelihood) lists.  Likelihoods, which
the source holds as python floats, are modelled as exact rationals.
Fallible python operations (list indexing, push of None, name lookup) are
modelled with Except, the error string recording the exception raised.
-/

/-- Positions travel through the source as FEN strings. -/
abbrev Fen := String

/-- Moves travel through the source as UCI strings. -/
abbrev UciMove := String

/-- The Rules Engine interface the source consumes from python-chess:
legal-move enumeration (in board order), move application, side to move,
terminal test.  Fingerprints coincide with the FEN strings themselves,
exactly as in the source, which keys every cache by board.fen(). -/
structure Rules where
  legalMoves : Fen → List UciMove
  push : Fen → UciMove → Fen
  turnWhite : Fen → Bool
  isGameOver : Fen → Bool

/-- One raw answer of the Evaluation Oracle: stockfish.get_evaluation()
returns a type tag (mate or centipawn) and a signed integer value. -/
structure SFEval where
  isMate : Bool
  value : Int
deriving DecidableEq

/-- AntimaiaPlayer.__init__: self.checkmate_weight = 10 * 100. -/
def checkmate_weight : Int := 10 * 100

/-- AntimaiaPlayer._get_stockfish_eval: a mate evaluation is scaled by
checkmate_weight and flagged; a centipawn evaluation passes through. -/
def get_stockfish_eval (sf : Fen → SFEval) (fen : Fen) : Int × Bool :=
  if (sf fen).isMate then ((sf fen).value * checkmate_weight, true)
  else ((sf fen).value, false)

/-- The nested helper ideal_move(mate, val, white) inside
AntimaiaPlayer._get_antimaia_move: a mate evaluation favoring the side to
move (positive value for White, negative for Black). -/
def ideal_move (mate : Bool) (val : Int) (white : Bool) : Bool :=
  if !mate then false
  else if decide (0 < val) && white then true
  else if decide (val < 0) && !white then true
  else false

/-- ideal_move applied to the evaluation of a given position, the pattern
ideal_move(mate, val, white) with (val, mate) = stockfish_evals[fen]. -/
def idealAt (sf : Fen → SFEval) (white : Bool) (fen : Fen) : Bool :=
  ideal_move (get_stockfish_eval sf fen).2 (get_stockfish_eval sf fen).1 white

/-- The inner expectation of _get_antimaia_move: move_results collects
val * pct over the distribution of the first-level position fen1, where the
follow-up position is obtained by pushing the distribution move onto fen1;
score = sum(move_results). -/
def move_score (R : Rules) (sf : Fen → SFEval)
    (dist : List (UciMove × ℚ)) (fen1 : Fen) : ℚ :=
  (dist.map (fun p =>
    ((get_stockfish_eval sf (R.push fen1 p.1)).1 : ℚ) * p.2)).sum

/-- The score the selection loop computes for one candidate move of the
root position: the expectation over the Maia distribution of the resulting
first-level position. -/
def moveScoreOf (R : Rules) (sf : Fen → SFEval)
    (maia : Fen → List (UciMove × ℚ)) (start_fen : Fen) (m : UciMove) : ℚ :=
  move_score R sf (maia (R.push start_fen m)) (R.push start_fen m)

/-- The update guard of the selection loop.  best_score starts at
-inf (White) or +inf (Black), which any finite score strictly beats; that
initial value is modelled as none.  Otherwise the comparison is strict:
score > best_score for White, score < best_score for Black, collapsing the
if/elif pair of the source, whose two guards are mutually exclusive. -/
def beats (white : Bool) (score : ℚ) (best_score : Option ℚ) : Bool :=
  match best_score with
  | none => true
  | some b => if white then decide (b < score) else decide (score < b)

/-- The main for-loop of _get_antimaia_move over the legal moves: per
candidate move, if the first-level evaluation is a mate favoring the side
to move, return that move immediately; otherwise compute the expectation
score and update (best_move, best_score) on strict improvement. -/
def antimaia_loop (R : Rules) (sf : Fen → SFEval)
    (maia : Fen → List (UciMove × ℚ)) (start_fen : Fen) (white : Bool) :
    List UciMove → UciMove → Option ℚ → UciMove
  | [], best_move, _ => best_move
  | move :: rest, best_move, best_score =>
    if idealAt sf white (R.push start_fen move) then move
    else if beats white (moveScoreOf R sf maia start_fen move) best_score then
      antimaia_loop R sf maia start_fen white rest move
        (some (moveScoreOf R sf maia start_fen move))
    else
      antimaia_loop R sf maia start_fen white rest best_move best_score

/-- AntimaiaPlayer._get_antimaia_move.  The source first executes
best_move = moves[0], which raises IndexError when the legal-move list is
empty; only then does it evaluate the root position and, on a mate
favoring the side to move, return the Evaluation Oracle recommendation
stockfish.get_best_move().  Otherwise it runs the selection loop.  The
decision-scoped dictionaries maia_distributions and stockfish_evals
memoize the pure oracle functions, so reading them is modelled as calling
the oracle function directly. -/
def get_antimaia_move (R : Rules) (sf : Fen → SFEval) (sf_best : Fen → UciMove)
    (maia : Fen → List (UciMove × ℚ)) (start_fen : Fen) : Except String UciMove :=
  match R.legalMoves start_fen with
  | [] => .error "IndexError: list index out of range"
  | m0 :: rest =>
    if idealAt sf (R.turnWhite start_fen) start_fen then
      .ok (sf_best start_fen)
    else
      .ok (antimaia_loop R sf maia start_fen (R.turnWhite start_fen)
        (m0 :: rest) m0 none)

/-- The set maia_fens built by _get_antimaia_move: the first-level FEN of
every legal move, with duplicates removed (python set), modelled as a
deduplicated list. -/
def maia_fens (R : Rules) (start_fen : Fen) : List Fen :=
  ((R.legalMoves start_fen).map (fun m => R.push start_fen m)).dedup

/-- MaiaPlayer._call_maia: iterates the received collection once, one
engine launch per element. -/
def call_maia_dispatch (fens : List Fen) : List Fen := fens

/-- MaiaPlayer._call_maia_parallel: takes set(fens) again, then spawns one
asynchronous task (one engine launch) per element of the set. -/
def call_maia_parallel_dispatch (fens : List Fen) : List Fen := fens.dedup

/-- The list of FEN queries _get_antimaia_move dispatches to the
Move-Distribution Oracle in sequential mode: none when the legal-move list
is empty (IndexError first) or when the root mate shortcut fires; otherwise
the deduplicated first-level FENs handed to _call_maia. -/
def maia_queries (R : Rules) (sf : Fen → SFEval) (start_fen : Fen) : List Fen :=
  match R.legalMoves start_fen with
  | [] => []
  | _ :: _ =>
    if idealAt sf (R.turnWhite start_fen) start_fen then []
    else call_maia_dispatch (maia_fens R start_fen)

/-- Same as maia_queries for the concurrent mode, through
_call_maia_parallel. -/
def maia_queries_parallel (R : Rules) (sf : Fen → SFEval) (start_fen : Fen) :
    List Fen :=
  match R.legalMoves start_fen with
  | [] => []
  | _ :: _ =>
    if idealAt sf (R.turnWhite start_fen) start_fen then []
    else call_maia_parallel_dispatch (maia_fens R start_fen)

/-- Strict preference order of the selection loop: for White a larger
score is preferred, for Black a smaller one. -/
def bLt (white : Bool) (a b : ℚ) : Prop :=
  match white with
  | true => a < b
  | false => b < a

/-- Weak counterpart of bLt. -/
def bLe (white : Bool) (a b : ℚ) : Prop :=
  match white with
  | true => a ≤ b
  | false => b ≤ a

instance instDecidableBLt (w : Bool) (a b : ℚ) : Decidable (bLt w a b) :=
  match w with
  | true => inferInstanceAs (Decidable (a < b))
  | false => inferInstanceAs (Decidable (b < a))

instance instDecidableBLe (w : Bool) (a b : ℚ) : Decidable (bLe w a b) :=
  match w with
  | true => inferInstanceAs (Decidable (a ≤ b))
  | false => inferInstanceAs (Decidable (b ≤ a))

lemma bLe_refl (w : Bool) (a : ℚ) : bLe w a a := by
  cases w <;> simp [bLe]

lemma bLt_imp_bLe {w : Bool} {a b : ℚ} (h : bLt w a b) : bLe w a b := by
  cases w <;> simp [bLt, bLe] at * <;> linarith

lemma bLt_bLe_trans {w : Bool} {a b c : ℚ} (h1 : bLt w a b) (h2 : bLe w b c) :
    bLt w a c := by
  cases w <;> simp [bLt, bLe] at * <;> linarith

lemma bLe_bLt_trans {w : Bool} {a b c : ℚ} (h1 : bLe w a b) (h2 : bLt w b c) :
    bLt w a c := by
  cases w <;> simp [bLt, bLe] at * <;> linarith

lemma bLe_trans {w : Bool} {a b c : ℚ} (h1 : bLe w a b) (h2 : bLe w b c) :
    bLe w a c := by
  cases w <;> simp [bLt, bLe] at * <;> linarith

lemma bLt_irrefl (w : Bool) (a : ℚ) : ¬ bLt w a a := by
  cases w <;> simp [bLt]

lemma beats_none (w : Bool) (s : ℚ) : beats w s none = true := rfl

lemma beats_some_iff {w : Bool} {s b : ℚ} :
    beats w s (some b) = true ↔ bLt w b s := by
  cases w <;> simp [beats, bLt]

lemma beats_some_false_iff {w : Bool} {s b : ℚ} :
    beats w s (some b) = false ↔ bLe w s b := by
  cases w <;> simp [beats, bLt, bLe]

/-- From a split of a list at the selected element, with strictly worse
scores before it and weakly worse after it, every element of the list
scores weakly worse. -/
lemma split_all_bLe {α : Type} (w : Bool) (S : α → ℚ) {l l1 l2 : List α}
    {r : α} (hsplit : l = l1 ++ r :: l2)
    (h1 : ∀ x ∈ l1, bLt w (S x) (S r)) (h2 : ∀ x ∈ l2, bLe w (S x) (S r)) :
    ∀ x ∈ l, bLe w (S x) (S r) := by
  intro x hx
  rw [hsplit] at hx
  rcases List.mem_append.mp hx with hx1 | hx2
  · exact bLt_imp_bLe (h1 x hx1)
  · rcases List.mem_cons.mp hx2 with hxr | hx2
    · rw [hxr]; exact bLe_refl w _
    · exact h2 x hx2

/-- Behaviour of the selection loop when no first-level mate shortcut
fires: starting from a current best move whose stored score is its own
expectation score, the loop returns the earliest element of best :: l that
attains the optimum (maximum for White, minimum for Black) of the
expectation scores: every element strictly before the returned one scores
strictly worse, every element after it scores weakly worse. -/
lemma antimaia_loop_spec (R : Rules) (sf : Fen → SFEval)
    (maia : Fen → List (UciMove × ℚ)) (fen : Fen) (white : Bool) :
    ∀ (l : List UciMove) (best : UciMove),
    (∀ m ∈ l, idealAt sf white (R.push fen m) = false) →
    ∃ r l1 l2,
      antimaia_loop R sf maia fen white l best
        (some (moveScoreOf R sf maia fen best)) = r ∧
      best :: l = l1 ++ r :: l2 ∧
      (∀ x ∈ l1, bLt white (moveScoreOf R sf maia fen x)
        (moveScoreOf R sf maia fen r)) ∧
      (∀ x ∈ l2, bLe white (moveScoreOf R sf maia fen x)
        (moveScoreOf R sf maia fen r)) := by
  intro l
  induction l with
  | nil =>
    intro best _
    exact ⟨best, [], [], rfl, rfl, by simp, by simp⟩
  | cons m rest ih =>
    intro best hl
    have hm : idealAt sf white (R.push fen m) = false :=
      hl m (List.mem_cons_self m rest)
    have hrest : ∀ x ∈ rest, idealAt sf white (R.push fen x) = false :=
      fun x hx => hl x (List.mem_cons_of_mem m hx)
    by_cases hb : beats white (moveScoreOf R sf maia fen m)
        (some (moveScoreOf R sf maia fen best)) = true
    · -- strict improvement: best becomes m
      obtain ⟨r, l1, l2, hr, hsplit, h1, h2⟩ := ih m hrest
      have hloop : antimaia_loop R sf maia fen white (m :: rest) best
          (some (moveScoreOf R sf maia fen best)) = r := by
        rw [antimaia_loop, hm, if_neg (by simp), if_pos hb, hr]
      have hall : ∀ x ∈ m :: rest,
          bLe white (moveScoreOf R sf maia fen x) (moveScoreOf R sf maia fen r) :=
        split_all_bLe white (moveScoreOf R sf maia fen) hsplit h1 h2
      have hbestlt : bLt white (moveScoreOf R sf maia fen best)
          (moveScoreOf R sf maia fen r) :=
        bLt_bLe_trans (beats_some_iff.mp hb) (hall m (List.mem_cons_self m rest))
      refine ⟨r, best :: l1, l2, hloop, by rw [hsplit]; rfl, ?_, h2⟩
      intro x hx
      rcases List.mem_cons.mp hx with hxb | hx1
      · rw [hxb]; exact hbestlt
      · exact h1 x hx1
    · -- no improvement: best kept
      have hble : bLe white (moveScoreOf R sf maia fen m)
          (moveScoreOf R sf maia fen best) :=
        beats_some_false_iff.mp (Bool.eq_false_iff.mpr hb)
      obtain ⟨r, l1, l2, hr, hsplit, h1, h2⟩ := ih best hrest
      have hloop : antimaia_loop R sf maia fen white (m :: rest) best
          (some (moveScoreOf R sf maia fen best)) = r := by
        rw [antimaia_loop, hm, if_neg (by simp),
          if_neg (by simp [Bool.eq_false_iff.mpr hb]), hr]
      cases l1 with
      | nil =>
        -- r = best, l2 = rest
        have hrb : r = best := by
          have := hsplit
          simp at this
          exact this.1.symm
        have hl2 : l2 = rest := by
          have := hsplit
          simp at this
          exact this.2.symm
        refine ⟨r, [], m :: rest, hloop, by rw [hrb]; rfl, by simp, ?_⟩
        intro x hx
        rcases List.mem_cons.mp hx with hxm | hx2
        · rw [hxm, hrb]; exact hble
        · rw [hl2] at h2; exact h2 x hx2
      | cons b l1' =>
        have hhead : b = best ∧ rest = l1' ++ r :: l2 := by
          have := hsplit
          simp at this
          exact ⟨this.1.symm, this.2⟩
        have hbestlt : bLt white (moveScoreOf R sf maia fen best)
            (moveScoreOf R sf maia fen r) := by
          have := h1 b (List.mem_cons_self b l1')
          rwa [hhead.1] at this
        refine ⟨r, best :: m :: l1', l2, hloop, ?_, ?_, h2⟩
        · rw [hhead.2]; rfl
        · intro x hx
          rcases List.mem_cons.mp hx with hxb | hx'
          · rw [hxb]; exact hbestlt
          · rcases List.mem_cons.mp hx' with hxm | hx1
            · rw [hxm]; exact bLe_bLt_trans hble hbestlt
            · exact h1 x (List.mem_cons_of_mem b hx1)

/-- Behaviour of _get_antimaia_move when the legal-move list is nonempty
and no mate shortcut fires, at the root or at any first-level position:
it returns the earliest legal move attaining the optimal expectation
score. -/
lemma get_antimaia_move_spec (R : Rules) (sf : Fen → SFEval)
    (sf_best : Fen → UciMove) (maia : Fen → List (UciMove × ℚ)) (fen : Fen)
    (m0 : UciMove) (rest : List UciMove)
    (hmoves : R.legalMoves fen = m0 :: rest)
    (hroot : idealAt sf (R.turnWhite fen) fen = false)
    (hnomate : ∀ m ∈ R.legalMoves fen,
      idealAt sf (R.turnWhite fen) (R.push fen m) = false) :
    ∃ r l1 l2,
      get_antimaia_move R sf sf_best maia fen = .ok r ∧
      R.legalMoves fen = l1 ++ r :: l2 ∧
      (∀ x ∈ l1, bLt (R.turnWhite fen) (moveScoreOf R sf maia fen x)
        (moveScoreOf R sf maia fen r)) ∧
      (∀ x ∈ l2, bLe (R.turnWhite fen) (moveScoreOf R sf maia fen x)
        (moveScoreOf R sf maia fen r)) := by
  have hm0 : idealAt sf (R.turnWhite fen) (R.push fen m0) = false :=
    hnomate m0 (by rw [hmoves]; exact List.mem_cons_self m0 rest)
  have hrest : ∀ m ∈ rest, idealAt sf (R.turnWhite fen) (R.push fen m) = false :=
    fun m hm => hnomate m (by rw [hmoves]; exact List.mem_cons_of_mem m0 hm)
  obtain ⟨r, l1, l2, hr, hsplit, h1, h2⟩ :=
    antimaia_loop_spec R sf maia fen (R.turnWhite fen) rest m0 hrest
  refine ⟨r, l1, l2, ?_, by rw [hmoves, hsplit], h1, h2⟩
  simp only [get_antimaia_move, hmoves]
  rw [if_neg (by simp [hroot]), antimaia_loop, hm0, if_neg (by simp),
    if_pos (beats_none (R.turnWhite fen) (moveScoreOf R sf maia fen m0)), hr]

/-- A fixed concrete Rules Engine used to witness theorems: two legal
moves everywhere, concatenation as move application, White to move,
never terminal. -/
def rulesW : Rules where
  legalMoves := fun _ => ["a", "b"]
  push := fun f m => f ++ m
  turnWhite := fun _ => true
  isGameOver := fun _ => false

/-- A concrete Rules Engine with an empty legal-move list. -/
def rulesEmpty : Rules where
  legalMoves := fun _ => []
  push := fun f m => f ++ m
  turnWhite := fun _ => true
  isGameOver := fun _ => false

/-- A concrete Evaluation Oracle reporting centipawn 0 everywhere. -/
def sfZero : Fen → SFEval := fun _ => ⟨false, 0⟩

/-- Claim C1: the spec states that on zero legal moves the selector
returns NoMove rather than raising; the code instead executes
best_move = moves[0] on the empty list, raising IndexError.  At a
position with an empty legal-move list the embedded _get_antimaia_move
produces the IndexError outcome, not a NoMove result. -/
theorem c1_zero_moves_raises :
    get_antimaia_move rulesEmpty sfZero (fun _ => "e2e4") (fun _ => []) "fen0"
      = .error "IndexError: list index out of range" := rfl

/-- Claim C2: when the Evaluation Oracle reports a mate favoring the side
to move at the root position, _get_antimaia_move returns the Evaluation
Oracle recommendation stockfish.get_best_move() for that position, the
Move-Distribution Oracle receives no query, and the decision does not
depend on the Move-Distribution Oracle at all. -/
theorem c2_mate_shortcut (R : Rules) (sf : Fen → SFEval)
    (sf_best : Fen → UciMove) (maia : Fen → List (UciMove × ℚ)) (fen : Fen)
    (hmoves : R.legalMoves fen ≠ [])
    (hmate : idealAt sf (R.turnWhite fen) fen = true) :
    get_antimaia_move R sf sf_best maia fen = .ok (sf_best fen) ∧
    maia_queries R sf fen = [] ∧
    maia_queries_parallel R sf fen = [] ∧
    ∀ maia2 : Fen → List (UciMove × ℚ),
      get_antimaia_move R sf sf_best maia2 fen = .ok (sf_best fen) := by
  cases h : R.legalMoves fen with
  | nil => exact absurd h hmoves
  | cons m0 rest =>
    refine ⟨?_, ?_, ?_, fun maia2 => ?_⟩ <;>
      simp [get_antimaia_move, maia_queries, maia_queries_parallel, h, hmate]

/-- Witness for c2_mate_shortcut: a mate-in-three evaluation for White at
a White-to-move position with two legal moves. -/
theorem c2_mate_shortcut_witness :
    (rulesW.legalMoves "s" ≠ [] ∧
      idealAt (fun _ => ⟨true, 3⟩) (rulesW.turnWhite "s") "s" = true) ∧
    (get_antimaia_move rulesW (fun _ => ⟨true, 3⟩) (fun _ => "bm") (fun _ => []) "s"
        = .ok "bm" ∧
      maia_queries rulesW (fun _ => ⟨true, 3⟩) "s" = [] ∧
      maia_queries_parallel rulesW (fun _ => ⟨true, 3⟩) "s" = [] ∧
      ∀ maia2 : Fen → List (UciMove × ℚ),
        get_antimaia_move rulesW (fun _ => ⟨true, 3⟩) (fun _ => "bm") maia2 "s"
          = .ok "bm") :=
  ⟨⟨by decide, by decide⟩,
    c2_mate_shortcut rulesW (fun _ => ⟨true, 3⟩) (fun _ => "bm") (fun _ => []) "s"
      (by decide) (by decide)⟩

/-- Claim C9: with at least one legal move and no mate shortcut taken
(neither at the root nor at any first-level position), _get_antimaia_move
succeeds and returns the earliest legal move, in Rules-Engine enumeration
order, attaining the optimal expectation score: maximal when White is to
move, minimal when Black.  The comparison is strict, so on an exact tie
the earliest-enumerated move is returned: every move listed before the
returned one scores strictly worse, and no move scores better. -/
theorem c9_argmax_earliest (R : Rules) (sf : Fen → SFEval)
    (sf_best : Fen → UciMove) (maia : Fen → List (UciMove × ℚ)) (fen : Fen)
    (m0 : UciMove) (rest : List UciMove)
    (hmoves : R.legalMoves fen = m0 :: rest)
    (hroot : idealAt sf (R.turnWhite fen) fen = false)
    (hnomate : ∀ m ∈ R.legalMoves fen,
      idealAt sf (R.turnWhite fen) (R.push fen m) = false) :
    ∃ r l1 l2,
      get_antimaia_move R sf sf_best maia fen = .ok r ∧
      R.legalMoves fen = l1 ++ r :: l2 ∧
      (∀ x ∈ l1, bLt (R.turnWhite fen) (moveScoreOf R sf maia fen x)
        (moveScoreOf R sf maia fen r)) ∧
      (∀ x ∈ R.legalMoves fen, bLe (R.turnWhite fen)
        (moveScoreOf R sf maia fen x) (moveScoreOf R sf maia fen r)) := by
  obtain ⟨r, l1, l2, hok, hsplit, h1, h2⟩ :=
    get_antimaia_move_spec R sf sf_best maia fen m0 rest hmoves hroot hnomate
  exact ⟨r, l1, l2, hok, hsplit, h1,
    split_all_bLe (R.turnWhite fen) (moveScoreOf R sf maia fen) hsplit h1 h2⟩

/-- Witness for c9_argmax_earliest: two legal moves whose expectation
scores tie at 0 under the all-zero Evaluation Oracle. -/
theorem c9_argmax_earliest_witness :
    (rulesW.legalMoves "s" = "a" :: ["b"] ∧
      idealAt sfZero (rulesW.turnWhite "s") "s" = false ∧
      ∀ m ∈ rulesW.legalMoves "s",
        idealAt sfZero (rulesW.turnWhite "s") (rulesW.push "s" m) = false) ∧
    (∃ r l1 l2,
      get_antimaia_move rulesW sfZero (fun _ => "bm")
        (fun _ => [("x", (1 : ℚ)/2)]) "s" = .ok r ∧
      rulesW.legalMoves "s" = l1 ++ r :: l2 ∧
      (∀ x ∈ l1, bLt (rulesW.turnWhite "s")
        (moveScoreOf rulesW sfZero (fun _ => [("x", (1 : ℚ)/2)]) "s" x)
        (moveScoreOf rulesW sfZero (fun _ => [("x", (1 : ℚ)/2)]) "s" r)) ∧
      (∀ x ∈ rulesW.legalMoves "s", bLe (rulesW.turnWhite "s")
        (moveScoreOf rulesW sfZero (fun _ => [("x", (1 : ℚ)/2)]) "s" x)
        (moveScoreOf rulesW sfZero (fun _ => [("x", (1 : ℚ)/2)]) "s" r))) :=
  ⟨⟨by decide, by decide, by decide⟩,
    c9_argmax_earliest rulesW sfZero (fun _ => "bm")
      (fun _ => [("x", (1 : ℚ)/2)]) "s" "a" ["b"]
      (by decide) (by decide) (by decide)⟩

/-- Claim C10: a candidate move whose first-level position receives an
empty Maia distribution is scored with the empty sum 0 and stays in
contention: the decision still succeeds, and when every other candidate
scores strictly worse than 0 the empty-distribution move is the one
returned. -/
theorem c10_empty_distribution (R : Rules) (sf : Fen → SFEval)
    (sf_best : Fen → UciMove) (maia : Fen → List (UciMove × ℚ)) (fen : Fen)
    (m0 : UciMove) (rest : List UciMove) (m : UciMove)
    (hmoves : R.legalMoves fen = m0 :: rest)
    (hroot : idealAt sf (R.turnWhite fen) fen = false)
    (hnomate : ∀ x ∈ R.legalMoves fen,
      idealAt sf (R.turnWhite fen) (R.push fen x) = false)
    (hm : m ∈ R.legalMoves fen)
    (hdist : maia (R.push fen m) = [])
    (hothers : ∀ x ∈ R.legalMoves fen, x ≠ m →
      bLt (R.turnWhite fen) (moveScoreOf R sf maia fen x) 0) :
    moveScoreOf R sf maia fen m = 0 ∧
    get_antimaia_move R sf sf_best maia fen = .ok m := by
  have hscore : moveScoreOf R sf maia fen m = 0 := by
    simp [moveScoreOf, move_score, hdist]
  obtain ⟨r, l1, l2, hok, hsplit, h1, h2⟩ :=
    get_antimaia_move_spec R sf sf_best maia fen m0 rest hmoves hroot hnomate
  have hall := split_all_bLe (R.turnWhite fen) (moveScoreOf R sf maia fen)
    hsplit h1 h2
  have hrmem : r ∈ R.legalMoves fen := by
    rw [hsplit]
    exact List.mem_append.mpr (Or.inr (List.mem_cons_self r l2))
  by_cases hrm : r = m
  · refine ⟨hscore, ?_⟩
    rw [hok, hrm]
  · exfalso
    have hrlt : bLt (R.turnWhite fen) (moveScoreOf R sf maia fen r) 0 :=
      hothers r hrmem hrm
    have hmle : bLe (R.turnWhite fen) (moveScoreOf R sf maia fen m)
        (moveScoreOf R sf maia fen r) := hall m hm
    rw [hscore] at hmle
    exact bLt_irrefl (R.turnWhite fen) (moveScoreOf R sf maia fen r)
      (bLt_bLe_trans hrlt hmle)

/-- A concrete Evaluation Oracle for the c10 witness: the follow-up
position sbm evaluates to -5 centipawns, everything else to 0. -/
def sfC10 : Fen → SFEval := fun f => if f = "sbm" then ⟨false, -5⟩ else ⟨false, 0⟩

/-- A concrete Move-Distribution Oracle for the c10 witness: position sa
receives the empty distribution, position sb one move of likelihood 1. -/
def maiaC10 : Fen → List (UciMove × ℚ) :=
  fun f => if f = "sb" then [("m", 1)] else []

/-- In the c10 witness scenario, every legal move other than move a
scores strictly below 0: move b scores -5. -/
lemma c10_other_scores_neg : ∀ x ∈ rulesW.legalMoves "s", x ≠ "a" →
    bLt (rulesW.turnWhite "s") (moveScoreOf rulesW sfC10 maiaC10 "s" x) 0 := by
  intro x hx hxne
  have hx2 : x = "a" ∨ x = "b" := by simpa [rulesW] using hx
  rcases hx2 with h | h
  · exact absurd h hxne
  · subst h
    have hval : moveScoreOf rulesW sfC10 maiaC10 "s" "b" = -5 := by
      have h1 : rulesW.push "s" "b" = "sb" := rfl
      have h2 : maiaC10 "sb" = [("m", 1)] := rfl
      have h3 : get_stockfish_eval sfC10 (rulesW.push "sb" "m") = (-5, false) := rfl
      norm_num [moveScoreOf, move_score, h1, h2, h3]
    show bLt true (moveScoreOf rulesW sfC10 maiaC10 "s" "b") 0
    rw [hval]
    show ((-5 : ℚ) < 0)
    norm_num

/-- Witness for c10_empty_distribution: move a of position s receives an
empty distribution and scores 0; move b scores -5; the selector returns
move a. -/
theorem c10_empty_distribution_witness :
    (rulesW.legalMoves "s" = "a" :: ["b"] ∧
      idealAt sfC10 (rulesW.turnWhite "s") "s" = false ∧
      (∀ x ∈ rulesW.legalMoves "s",
        idealAt sfC10 (rulesW.turnWhite "s") (rulesW.push "s" x) = false) ∧
      "a" ∈ rulesW.legalMoves "s" ∧
      maiaC10 (rulesW.push "s" "a") = [] ∧
      ∀ x ∈ rulesW.legalMoves "s", x ≠ "a" →
        bLt (rulesW.turnWhite "s") (moveScoreOf rulesW sfC10 maiaC10 "s" x) 0) ∧
    (moveScoreOf rulesW sfC10 maiaC10 "s" "a" = 0 ∧
      get_antimaia_move rulesW sfC10 (fun _ => "bm") maiaC10 "s" = .ok "a") :=
  ⟨⟨by decide, by decide, by decide, by decide, by decide, c10_other_scores_neg⟩,
    c10_empty_distribution rulesW sfC10 (fun _ => "bm") maiaC10 "s" "a" ["b"] "a"
      (by decide) (by decide) (by decide) (by decide) (by decide)
      c10_other_scores_neg⟩

/-- Claim C7: when two distinct legal moves of one position lead to
first-level positions with the same fingerprint F, the per-decision query
lists sent to the Move-Distribution Oracle contain F exactly once, in the
sequential mode and in the concurrent mode alike, because the fingerprints
are deduplicated (collected into a set) before dispatch. -/
theorem c7_dedup_before_dispatch (R : Rules) (sf : Fen → SFEval) (fen : Fen)
    (F : Fen) (m1 m2 : UciMove)
    (hm1 : m1 ∈ R.legalMoves fen) (hm2 : m2 ∈ R.legalMoves fen)
    (hne : m1 ≠ m2) (hF1 : R.push fen m1 = F) (hF2 : R.push fen m2 = F)
    (hroot : idealAt sf (R.turnWhite fen) fen = false) :
    (maia_queries R sf fen).count F = 1 ∧
    (maia_queries_parallel R sf fen).count F = 1 := by
  have hFmem : F ∈ (R.legalMoves fen).map (fun m => R.push fen m) :=
    List.mem_map.mpr ⟨m1, hm1, hF1⟩
  have hnodup : (maia_fens R fen).Nodup :=
    List.nodup_dedup ((R.legalMoves fen).map (fun m => R.push fen m))
  have hmemd : F ∈ maia_fens R fen := List.mem_dedup.mpr hFmem
  have hcount : (maia_fens R fen).count F = 1 :=
    List.count_eq_one_of_mem hnodup hmemd
  cases h : R.legalMoves fen with
  | nil => rw [h] at hm1; exact absurd hm1 (List.not_mem_nil m1)
  | cons a l =>
    constructor
    · simp only [maia_queries, h, call_maia_dispatch]
      rw [if_neg (by simp [hroot])]
      exact hcount
    · simp only [maia_queries_parallel, h, call_maia_parallel_dispatch]
      rw [if_neg (by simp [hroot]), List.Nodup.dedup hnodup]
      exact hcount

/-- A concrete Rules Engine whose two legal moves lead to the same
first-level position sz: move application ignores the move played. -/
def rulesDup : Rules where
  legalMoves := fun _ => ["a", "b"]
  push := fun f _ => f ++ "z"
  turnWhite := fun _ => true
  isGameOver := fun _ => false

/-- Witness for c7_dedup_before_dispatch: moves a and b of position s both
reach fingerprint sz; both dispatch lists contain sz exactly once. -/
theorem c7_dedup_before_dispatch_witness :
    ("a" ∈ rulesDup.legalMoves "s" ∧ "b" ∈ rulesDup.legalMoves "s" ∧
      "a" ≠ "b" ∧ rulesDup.push "s" "a" = "sz" ∧ rulesDup.push "s" "b" = "sz" ∧
      idealAt sfZero (rulesDup.turnWhite "s") "s" = false) ∧
    ((maia_queries rulesDup sfZero "s").count "sz" = 1 ∧
      (maia_queries_parallel rulesDup sfZero "s").count "sz" = 1) :=
  ⟨⟨by decide, by decide, by decide, by decide, by decide, by decide⟩,
    c7_dedup_before_dispatch rulesDup sfZero "s" "sz" "a" "b"
      (by decide) (by decide) (by decide) (by decide) (by decide) (by decide)⟩

/-- Claim C8: the expectation the selection loop computes for a candidate
move is the sum over the (move, likelihood) pairs of its distribution of
likelihood times the evaluation of the follow-up position, with the
likelihoods used exactly as reported (no renormalization), and its value
is invariant under any permutation of the distribution. -/
theorem c8_expected_value (R : Rules) (sf : Fen → SFEval) (fen1 : Fen)
    (dist dist2 : List (UciMove × ℚ)) (hperm : dist.Perm dist2) :
    move_score R sf dist fen1 =
      (dist.map (fun p =>
        p.2 * ((get_stockfish_eval sf (R.push fen1 p.1)).1 : ℚ))).sum ∧
    move_score R sf dist fen1 = move_score R sf dist2 fen1 := by
  constructor
  · unfold move_score
    congr 1
    apply List.map_congr_left
    intro p _
    ring
  · exact List.Perm.sum_eq (hperm.map _)

/-- Witness for c8_expected_value: a two-pair distribution and its
transposition. -/
theorem c8_expected_value_witness :
    ([("x", (1 : ℚ)/2), ("y", (1 : ℚ)/3)].Perm
      [("y", (1 : ℚ)/3), ("x", (1 : ℚ)/2)]) ∧
    (move_score rulesW sfC10 [("x", (1 : ℚ)/2), ("y", (1 : ℚ)/3)] "sb" =
      ([("x", (1 : ℚ)/2), ("y", (1 : ℚ)/3)].map (fun p =>
        p.2 * ((get_stockfish_eval sfC10 (rulesW.push "sb" p.1)).1 : ℚ))).sum ∧
    move_score rulesW sfC10 [("x", (1 : ℚ)/2), ("y", (1 : ℚ)/3)] "sb" =
      move_score rulesW sfC10 [("y", (1 : ℚ)/3), ("x", (1 : ℚ)/2)] "sb") :=
  ⟨List.Perm.swap ("y", (1 : ℚ)/3) ("x", (1 : ℚ)/2) [],
    c8_expected_value rulesW sfC10 "sb"
      [("x", (1 : ℚ)/2), ("y", (1 : ℚ)/3)] [("y", (1 : ℚ)/3), ("x", (1 : ℚ)/2)]
      (List.Perm.swap ("y", (1 : ℚ)/3) ("x", (1 : ℚ)/2) [])⟩

/-- Claim C3 as stated is false on the code: with checkmate_weight
10 * 100 = 1000, a mate-in-one evaluation is scaled to magnitude 1000,
which is not strictly larger than the non-mate centipawn score 1500 that
the Evaluation Oracle can produce. -/
theorem c3_counterexample :
    ¬ (∀ (mEv cpEv : SFEval) (fen : Fen), mEv.isMate = true →
        cpEv.isMate = false →
        |(get_stockfish_eval (fun _ => cpEv) fen).1| <
          |(get_stockfish_eval (fun _ => mEv) fen).1|) := by
  intro h
  have hc := h ⟨true, 1⟩ ⟨false, 1500⟩ "f" rfl rfl
  exact absurd hc (by decide)

/-- Claim C3 amended: a mate-flagged evaluation is scaled to
mate distance times checkmate_weight = 1000, so its sign still encodes
which side is mated (positive mate distance gives a positive evaluation,
negative gives negative), and its magnitude strictly dominates every
non-mate score of magnitude below 1000 times the mate distance, though
not every non-mate score the Evaluation Oracle can produce. -/
theorem c3_amended (e : SFEval) (fen : Fen) (hm : e.isMate = true) :
    (get_stockfish_eval (fun _ => e) fen).2 = true ∧
    (get_stockfish_eval (fun _ => e) fen).1 = e.value * checkmate_weight ∧
    (0 < e.value → 0 < (get_stockfish_eval (fun _ => e) fen).1) ∧
    (e.value < 0 → (get_stockfish_eval (fun _ => e) fen).1 < 0) ∧
    ∀ c : Int, |c| < checkmate_weight * |e.value| →
      |c| < |(get_stockfish_eval (fun _ => e) fen).1| := by
  have h1 : get_stockfish_eval (fun _ => e) fen =
      (e.value * checkmate_weight, true) := by
    simp [get_stockfish_eval, hm]
  rw [h1]
  refine ⟨rfl, rfl, ?_, ?_, ?_⟩
  · intro h
    exact mul_pos h (by norm_num [checkmate_weight])
  · intro h
    exact mul_neg_of_neg_of_pos h (by norm_num [checkmate_weight])
  · intro c hc
    have habs : |e.value * checkmate_weight| = |e.value| * checkmate_weight := by
      rw [abs_mul, show |checkmate_weight| = checkmate_weight from by decide]
    rw [habs, mul_comm]
    exact hc

/-- Witness for c3_amended: a mate-in-three evaluation for White. -/
theorem c3_amended_witness :
    ((⟨true, 3⟩ : SFEval).isMate = true) ∧
    ((get_stockfish_eval (fun _ => (⟨true, 3⟩ : SFEval)) "f").2 = true ∧
      (get_stockfish_eval (fun _ => (⟨true, 3⟩ : SFEval)) "f").1 =
        (3 : Int) * checkmate_weight ∧
      ((0 : Int) < 3 → 0 < (get_stockfish_eval (fun _ => (⟨true, 3⟩ : SFEval)) "f").1) ∧
      ((3 : Int) < 0 → (get_stockfish_eval (fun _ => (⟨true, 3⟩ : SFEval)) "f").1 < 0) ∧
      ∀ c : Int, |c| < checkmate_weight * |(3 : Int)| →
        |c| < |(get_stockfish_eval (fun _ => (⟨true, 3⟩ : SFEval)) "f").1|) :=
  ⟨rfl, c3_amended ⟨true, 3⟩ "f" rfl⟩

/-- GameManager.pit, modelled as a fuel-indexed recursion over the while
loop.  Each round: if the board is terminal stop with the record so far;
otherwise ask the White selector; the source then calls board.push(w)
BEFORE testing "if not w", so a selector answer of None (NoMove) raises
TypeError inside push and the "not w" test is unreachable for it; with a
real move, the loop breaks right after recording it when the resulting
position is terminal; then the same for Black; otherwise continue.  Fuel
exhaustion stands for nontermination and is distinguished as an error. -/
def pit_loop (R : Rules) (white_sel black_sel : Fen → Option UciMove) :
    ℕ → Fen → List UciMove → Except String (List UciMove)
  | 0, _, _ => .error "nontermination: fuel exhausted"
  | fuel + 1, fen, record =>
    if R.isGameOver fen then .ok record
    else
      match white_sel fen with
      | none => .error "TypeError: Board.push expected a Move, got None"
      | some w =>
        if R.isGameOver (R.push fen w) then .ok (record ++ [w])
        else
          match black_sel (R.push fen w) with
          | none => .error "TypeError: Board.push expected a Move, got None"
          | some b =>
            if R.isGameOver (R.push (R.push fen w) b) then
              .ok (record ++ [w, b])
            else
              pit_loop R white_sel black_sel fuel (R.push (R.push fen w) b)
                (record ++ [w, b])

/-- Claim C4: the spec says that a selector returning NoMove makes the
Match Runner stop cleanly after recording that half-move; in the code
board.push(w) executes before the "if not w" check, so a NoMove answer
raises TypeError and aborts the match instead: here White returns NoMove
at the non-terminal start position and pit raises. -/
theorem c4_nomove_raises :
    pit_loop rulesW (fun _ => none) (fun _ => some "b") 5 "start" [] =
      .error "TypeError: Board.push expected a Move, got None" := rfl

/-- GameManager.save, modelled over an abstract filesystem given as the
list of occupied paths.  When the target path is free the record is
written there (parent directories created).  When the path is occupied,
the source prints a notice and then executes original_path = filename;
no name filename is defined anywhere in the module (and the random module
used by unique_part is never imported), so the collision branch raises
NameError before any renaming can happen. -/
def save (occupied : List String) (path : String) : Except String String :=
  if path ∈ occupied then .error "NameError: name filename is not defined"
  else .ok path

/-- Claim C5: the spec says a save to an occupied path is recovered by
appending a random 6-hex suffix and never surfaces the collision; the
code instead raises NameError on the first line of the collision branch:
saving to the already-occupied path games/out.pgn fails. -/
theorem c5_save_collision_raises :
    save ["games/out.pgn"] "games/out.pgn" =
      .error "NameError: name filename is not defined" := rfl

/-- The first statement of MaiaPlayer._parse_info: join on splitting by
spaces, which removes every space character. -/
def strip_spaces (s : String) : String :=
  String.mk (s.data.filter (fun c => c ≠ ' '))

/-- The move extraction of _parse_info: the text before the first opening
parenthesis, the whole string when there is none. -/
def before_paren (s : String) : String :=
  String.mk (s.data.takeWhile (fun c => c ≠ '('))

/-- Python split on the two-character separator used by _parse_info: the
segments of the character list between occurrences of P followed by a
colon; always at least one segment, exactly like python str.split. -/
def splitPS : List Char → List (List Char)
  | [] => [[]]
  | 'P' :: ':' :: rest => [] :: splitPS rest
  | c :: rest =>
    match splitPS rest with
    | [] => [[c]]
    | seg :: segs => (c :: seg) :: segs

/-- Decimal digits to a natural number. -/
def natOfDigits (cs : List Char) : ℕ :=
  cs.foldl (fun n c => 10 * n + (c.toNat - 48)) 0

/-- Model of python float() restricted to unsigned plain decimal
literals: digit characters with at most one dot and at least one digit;
anything else is a ValueError, modelled as none.  The lc0
verbose-move-stats percentages are exactly of this shape. -/
def pyFloatCore (cs : List Char) : Option ℚ :=
  match cs.dropWhile Char.isDigit with
  | [] =>
    if (cs.takeWhile Char.isDigit).isEmpty then none
    else some (natOfDigits (cs.takeWhile Char.isDigit))
  | '.' :: frac =>
    if frac.all Char.isDigit &&
        !((cs.takeWhile Char.isDigit).isEmpty && frac.isEmpty) then
      some ((natOfDigits (cs.takeWhile Char.isDigit) : ℚ) +
        (natOfDigits frac : ℚ) / (10 : ℚ) ^ frac.length)
    else none
  | _ => none

/-- Model of python float() with an optional leading sign. -/
def pyFloat (cs : List Char) : Option ℚ :=
  match cs with
  | '-' :: rest => (pyFloatCore rest).map (fun q => -q)
  | '+' :: rest => pyFloatCore rest
  | _ => pyFloatCore cs

/-- MaiaPlayer._parse_info: strip every space; the move is the text
before the first opening parenthesis; the percentage is the text after
the first P-colon separator and before the next percent sign, converted
by float() and divided by 100.  A line without the P-colon separator
raises IndexError on the [1] index; a non-numeric percentage raises
ValueError in float(). -/
def parse_info (line : String) : Except String (String × ℚ) :=
  match (splitPS (strip_spaces line).data).drop 1 with
  | [] => .error "IndexError: list index out of range"
  | seg :: _ =>
    match pyFloat (seg.takeWhile (fun c => c ≠ '%')) with
    | none => .error "ValueError: could not convert string to float"
    | some q => .ok (before_paren (strip_spaces line), q / 100)

/-- One streamed line of the oracle protocol as surfaced by the engine
wrapper: either an info line carrying a string payload (the verbose move
statistics text), or any other protocol line, which carries no string
key. -/
inductive InfoLine where
  | stringInfo (s : String)
  | other
deriving DecidableEq

/-- Whether a protocol line carries a string payload, the test
"if string in info" of the analysis loop. -/
def InfoLine.hasString : InfoLine → Bool
  | .stringInfo _ => true
  | .other => false

/-- The analysis loop of MaiaPlayer._get_maia_distribution and of its
async twin: lines without a string payload are skipped; each string
payload goes through _parse_info, whose exception aborts the whole
query; a parsed move equal to the sentinel node is discarded. -/
def collect_infos : List InfoLine → Except String (List (String × ℚ))
  | [] => .ok []
  | .other :: rest => collect_infos rest
  | .stringInfo s :: rest =>
    match parse_info s with
    | .error e => .error e
    | .ok mp =>
      match collect_infos rest with
      | .error e => .error e
      | .ok tail => .ok (if mp.1 = "node" then tail else mp :: tail)

/-- MaiaPlayer._get_maia_distribution: the collected pairs sorted by
likelihood descending (python sorted with reverse=True, a stable sort). -/
def get_maia_distribution (stream : List InfoLine) :
    Except String (List (String × ℚ)) :=
  (collect_infos stream).map (fun infos =>
    infos.mergeSort (fun a b => decide (b.2 ≤ a.2)))

/-- Removing the lines without string payload from a stream does not
change the outcome of the analysis loop. -/
lemma collect_infos_filter (stream : List InfoLine) :
    collect_infos stream = collect_infos (stream.filter InfoLine.hasString) := by
  induction stream with
  | nil => rfl
  | cons i rest ih =>
    cases i with
    | other => simpa [collect_infos, List.filter, InfoLine.hasString] using ih
    | stringInfo s =>
      simp only [List.filter, InfoLine.hasString]
      rcases hp : parse_info s with e | mp
      · simp [collect_infos, hp]
      · simp [collect_infos, hp, ih]

/-- Claim C6 as stated is false on the code: a diagnostic line whose
string payload lacks the P-colon separator is not silently discarded;
_parse_info raises IndexError and the whole query fails, even though a
well-formed statistics line follows in the stream. -/
theorem c6_counterexample :
    get_maia_distribution
      [.stringInfo "smart pruning stopped",
       .stringInfo "e2e4 (293) N: 5 (P: 10.25%)"] =
      .error "IndexError: list index out of range" := rfl

/-- Claim C6 amended: protocol-noise lines without a string payload are
silently discarded and never fail the query: the outcome of
_get_maia_distribution is unchanged when they are removed from the
stream.  A string payload that _parse_info cannot parse, however, raises
and aborts the whole query. -/
theorem c6_noise_discarded (stream : List InfoLine) :
    get_maia_distribution stream =
      get_maia_distribution (stream.filter InfoLine.hasString) := by
  unfold get_maia_distribution
  rw [collect_infos_filter]
